import Mathlib

/-!
Verification of the borrowing-capacity lambda (`src/lambda_function.py`).

The numeric core of the program works on Python `Decimal` values with the
`ROUND_HALF_UP` rounding mode; we embed those values as exact rationals `ℚ`
and `round2` as rounding to two fractional digits with ties going away from
zero, which is what `Decimal.quantize(Decimal("0.01"), rounding=ROUND_HALF_UP)`
computes.  The `float(...)` conversions the Python code applies when it stores
a schedule row are display-only and are not modelled; all claims are about the
decimal quantities.
-/

namespace BorrowingCapacity

attribute [local semireducible] Rat.mul Rat.add Rat.sub Rat.inv

/-- Round a rational to the nearest integer, ties away from zero.
This is the integer core of Python `Decimal`'s `ROUND_HALF_UP` mode. -/
def rhalf (q : ℚ) : ℤ :=
  if q < 0 then -⌊-q + 1/2⌋ else ⌊q + 1/2⌋

/-- `round2` from `lambda_function.py` (lines 24-29):
`x.quantize(Decimal("0.01"), rounding=ROUND_HALF_UP)`. -/
def round2 (x : ℚ) : ℚ :=
  (rhalf (100 * x) : ℚ) / 100

/-- A rational is a whole-cent amount: an integer multiple of `0.01`. -/
def IsCent (x : ℚ) : Prop :=
  ∃ n : ℤ, x = (n : ℚ) / 100

theorem rhalf_intCast (n : ℤ) : rhalf (n : ℚ) = n := by
  unfold rhalf
  have h0 : ⌊(n : ℚ) + 1/2⌋ = n + ⌊(1/2 : ℚ)⌋ := Int.floor_int_add n (1/2)
  have h1 : ⌊(-(n : ℚ)) + 1/2⌋ = -n + ⌊(1/2 : ℚ)⌋ := by
    have := Int.floor_int_add (-n) (1/2 : ℚ)
    simpa using this
  have hhalf : ⌊(1/2 : ℚ)⌋ = 0 := by norm_num [Int.floor_eq_zero_iff]
  split_ifs with h
  · rw [h1, hhalf]; ring
  · rw [h0, hhalf]; ring

theorem rhalf_mono {q r : ℚ} (h : q ≤ r) : rhalf q ≤ rhalf r := by
  unfold rhalf
  split_ifs with hq hr hr
  · have : -r ≤ -q := by linarith
    have := Int.floor_mono (add_le_add_right this (1/2 : ℚ))
    omega
  · push_neg at hr
    have h1 : ⌊-q + 1/2⌋ ≥ ⌊(1/2 : ℚ)⌋ := Int.floor_mono (by linarith)
    have h2 : ⌊r + 1/2⌋ ≥ ⌊(1/2 : ℚ)⌋ := Int.floor_mono (by linarith)
    have hhalf : ⌊(1/2 : ℚ)⌋ = 0 := by norm_num [Int.floor_eq_zero_iff]
    omega
  · exact absurd (lt_of_le_of_lt h hr) (not_lt.mpr (le_of_not_lt hq))
  · exact Int.floor_mono (add_le_add_right h (1/2))

theorem round2_mono {x y : ℚ} (h : x ≤ y) : round2 x ≤ round2 y := by
  unfold round2
  have : rhalf (100 * x) ≤ rhalf (100 * y) := rhalf_mono (by linarith)
  have hc : ((rhalf (100 * x) : ℤ) : ℚ) ≤ ((rhalf (100 * y) : ℤ) : ℚ) := by
    exact_mod_cast this
  linarith

theorem round2_isCent (x : ℚ) : IsCent (round2 x) :=
  ⟨rhalf (100 * x), rfl⟩

theorem round2_cent {x : ℚ} (h : IsCent x) : round2 x = x := by
  obtain ⟨n, rfl⟩ := h
  unfold round2
  have h100 : (100 : ℚ) * ((n : ℚ) / 100) = (n : ℚ) := by ring
  rw [h100, rhalf_intCast]

theorem round2_zero : round2 0 = 0 :=
  round2_cent ⟨0, by norm_num⟩

theorem round2_nonneg {x : ℚ} (h : 0 ≤ x) : 0 ≤ round2 x := by
  have := round2_mono h
  rwa [round2_zero] at this

theorem cent_sub {x y : ℚ} (hx : IsCent x) (hy : IsCent y) : IsCent (x - y) := by
  obtain ⟨n, rfl⟩ := hx
  obtain ⟨m, rfl⟩ := hy
  exact ⟨n - m, by push_cast; ring⟩

/-- Distance and tie-direction facts for `rhalf`. -/
theorem rhalf_close (q : ℚ) :
    |(rhalf q : ℚ) - q| ≤ 1/2 ∧ (|(rhalf q : ℚ) - q| < 1/2 ∨ |q| ≤ |(rhalf q : ℚ)|) := by
  unfold rhalf
  split_ifs with h
  · set r : ℤ := ⌊-q + 1/2⌋ with hr
    have hle : (r : ℚ) ≤ -q + 1/2 := Int.floor_le _
    have hlt : -q + 1/2 < (r : ℚ) + 1 := Int.lt_floor_add_one _
    have hcast : ((-r : ℤ) : ℚ) = -(r : ℚ) := by push_cast; ring
    rw [hcast]
    constructor
    · rw [abs_le]; constructor <;> linarith
    · by_cases htie : -(r : ℚ) - q = -(1/2)
      · right
        have hrval : -(r : ℚ) = q - 1/2 := by linarith
        have hq : |q| = -q := abs_of_neg h
        have hrneg : -(r : ℚ) < 0 := by linarith
        have : |(-(r : ℚ))| = -(-(r : ℚ)) := abs_of_neg hrneg
        rw [hq, this, hrval]
        linarith
      · left
        rw [abs_lt]
        constructor
        · exact lt_of_le_of_ne (by linarith) (Ne.symm (by simpa using htie))
        · linarith
  · push_neg at h
    set r : ℤ := ⌊q + 1/2⌋ with hr
    have hle : (r : ℚ) ≤ q + 1/2 := Int.floor_le _
    have hlt : q + 1/2 < (r : ℚ) + 1 := Int.lt_floor_add_one _
    constructor
    · rw [abs_le]; constructor <;> linarith
    · by_cases htie : (r : ℚ) - q = 1/2
      · right
        have hrval : (r : ℚ) = q + 1/2 := by linarith
        have hq : |q| = q := abs_of_nonneg h
        have hrpos : (0 : ℚ) ≤ (r : ℚ) := by linarith
        rw [hq, abs_of_nonneg hrpos]
        linarith
      · left
        rw [abs_lt]
        constructor
        · linarith
        · exact lt_of_le_of_ne (by linarith) htie

/-- C4: `round2` rounds every rational to a whole-cent amount that is within
half a cent of its argument, with ties resolved away from zero (never by the
half-to-even rule), and on the three spec test points it produces
`123.46`, `123.45` and `-0.01`. -/
theorem round2_half_away_spec (x : ℚ) :
    (∃ n : ℤ, round2 x = (n : ℚ) / 100) ∧
    |round2 x - x| ≤ 1/200 ∧
    (|round2 x - x| < 1/200 ∨ |x| ≤ |round2 x|) ∧
    round2 (123455/1000) = 12346/100 ∧
    round2 (123454/1000) = 12345/100 ∧
    round2 (-(5/1000)) = -(1/100) := by
  obtain ⟨hclose, htie⟩ := rhalf_close (100 * x)
  have hdiff : round2 x - x = ((rhalf (100 * x) : ℚ) - 100 * x) / 100 := by
    unfold round2; ring
  have habs : |round2 x - x| = |(rhalf (100 * x) : ℚ) - 100 * x| / 100 := by
    rw [hdiff, abs_div]
    norm_num
  refine ⟨round2_isCent x, ?_, ?_, by decide, by decide, by decide⟩
  · rw [habs]; linarith
  · rcases htie with hlt | hge
    · left; rw [habs]; linarith
    · right
      have hx : |x| = |100 * x| / 100 := by
        rw [abs_mul]
        norm_num
      have hr : |round2 x| = |(rhalf (100 * x) : ℚ)| / 100 := by
        unfold round2
        rw [abs_div]
        norm_num
      rw [hx, hr]
      linarith

/-!
Decision engine (`compute_decision`, lambda_function.py lines 34-75).

The payload carries a loan application and a possibly empty list of approved
loans.  `compute_decision` reads only `baseSalary`, `amount` and `monthlyDebt`
from the application and `monthlyDebt` from each approved loan; the remaining
application fields (`term`, `annualInterestRate`, `email`) are read elsewhere
in the handler and are carried here so that non-interference can be stated.
-/

structure LoanApplication where
  baseSalary : ℚ
  amount : ℚ
  monthlyDebt : ℚ
  term : ℤ
  annualInterestRate : ℚ
  email : Option String
deriving DecidableEq

structure ApprovedLoan where
  monthlyDebt : ℚ
deriving DecidableEq

inductive Decision where
  | APPROVED
  | REJECTED
  | MANUAL_REVIEW
deriving DecidableEq

/-- Line 57: `cap_max = round2(base_salary * D("0.35"))`. -/
def cap_max (la : LoanApplication) : ℚ :=
  round2 (la.baseSalary * (35/100))

/-- Line 60: `current_debt = round2(sum(...) if approved_list else D("0"))`. -/
def current_debt (l : List ApprovedLoan) : ℚ :=
  round2 (if l.isEmpty then 0 else (l.map ApprovedLoan.monthlyDebt).sum)

/-- Line 63: `cap_disp = round2(cap_max - current_debt)`. -/
def cap_disp (la : LoanApplication) (l : List ApprovedLoan) : ℚ :=
  round2 (cap_max la - current_debt l)

/-- Lines 66-75: the decision tree.  The `print` calls of the source are
side-effect-free diagnostics and are not modelled. -/
def compute_decision (la : LoanApplication) (l : List ApprovedLoan) : Decision :=
  if la.monthlyDebt ≤ cap_disp la l then
    if cap_max la < la.amount then Decision.MANUAL_REVIEW else Decision.APPROVED
  else
    Decision.REJECTED

theorem current_debt_eq (l : List ApprovedLoan) :
    current_debt l = round2 ((l.map ApprovedLoan.monthlyDebt).sum) := by
  cases l <;> simp [current_debt]

theorem decision_rejected_iff (la : LoanApplication) (l : List ApprovedLoan) :
    compute_decision la l = Decision.REJECTED ↔ cap_disp la l < la.monthlyDebt := by
  unfold compute_decision
  split_ifs with h1 h2 <;>
    simp_all [not_le, le_of_lt, not_lt_of_le]

theorem decision_manual_iff (la : LoanApplication) (l : List ApprovedLoan) :
    compute_decision la l = Decision.MANUAL_REVIEW ↔
      la.monthlyDebt ≤ cap_disp la l ∧ cap_max la < la.amount := by
  unfold compute_decision
  split_ifs with h1 h2 <;> simp_all [not_le]

theorem decision_approved_iff (la : LoanApplication) (l : List ApprovedLoan) :
    compute_decision la l = Decision.APPROVED ↔
      la.monthlyDebt ≤ cap_disp la l ∧ la.amount ≤ cap_max la := by
  unfold compute_decision
  split_ifs with h1 h2 <;> simp_all [not_le, not_lt]

/-- C1: `compute_decision` returns REJECTED exactly when the new monthly debt
strictly exceeds `round2(round2(baseSalary * 0.35) - round2(Σ monthlyDebt))`
(equal values pass); otherwise it returns MANUAL_REVIEW exactly when the
requested amount strictly exceeds the undiminished `round2(baseSalary * 0.35)`;
otherwise it returns APPROVED. -/
theorem compute_decision_characterization (la : LoanApplication) (l : List ApprovedLoan) :
    (compute_decision la l = Decision.REJECTED ↔
      round2 (round2 (la.baseSalary * (35/100)) -
        round2 ((l.map ApprovedLoan.monthlyDebt).sum)) < la.monthlyDebt) ∧
    (compute_decision la l = Decision.MANUAL_REVIEW ↔
      la.monthlyDebt ≤ round2 (round2 (la.baseSalary * (35/100)) -
        round2 ((l.map ApprovedLoan.monthlyDebt).sum)) ∧
      round2 (la.baseSalary * (35/100)) < la.amount) ∧
    (compute_decision la l = Decision.APPROVED ↔
      la.monthlyDebt ≤ round2 (round2 (la.baseSalary * (35/100)) -
        round2 ((l.map ApprovedLoan.monthlyDebt).sum)) ∧
      la.amount ≤ round2 (la.baseSalary * (35/100))) := by
  have hd : cap_disp la l =
      round2 (round2 (la.baseSalary * (35/100)) -
        round2 ((l.map ApprovedLoan.monthlyDebt).sum)) := by
    unfold cap_disp cap_max
    rw [current_debt_eq]
  have hm : cap_max la = round2 (la.baseSalary * (35/100)) := rfl
  refine ⟨?_, ?_, ?_⟩
  · rw [← hd]; exact decision_rejected_iff la l
  · rw [← hd, ← hm]; exact decision_manual_iff la l
  · rw [← hd, ← hm]; exact decision_approved_iff la l

/-- C8: appending an approved loan with positive monthly debt never increases
the available capacity `cap_disp`. -/
theorem cap_disp_append_le (la : LoanApplication) (l : List ApprovedLoan)
    (loan : ApprovedLoan) (h : 0 < loan.monthlyDebt) :
    cap_disp la (l ++ [loan]) ≤ cap_disp la l := by
  unfold cap_disp
  apply round2_mono
  have hsum : ((l ++ [loan]).map ApprovedLoan.monthlyDebt).sum =
      (l.map ApprovedLoan.monthlyDebt).sum + loan.monthlyDebt := by
    simp
  have hmono : current_debt l ≤ current_debt (l ++ [loan]) := by
    rw [current_debt_eq, current_debt_eq, hsum]
    exact round2_mono (by linarith)
  linarith

/-- Witness for C8 at a concrete payload: one approved loan of `1` against an
empty approved list. -/
theorem cap_disp_append_le_witness :
    cap_disp ⟨3000000, 1000000, 1000000, 12, 0, none⟩ ([] ++ [⟨1⟩]) ≤
      cap_disp ⟨3000000, 1000000, 1000000, 12, 0, none⟩ [] :=
  cap_disp_append_le ⟨3000000, 1000000, 1000000, 12, 0, none⟩ [] ⟨1⟩ (by norm_num)

/-- C9: the decision depends only on the application's `baseSalary`, `amount`
and `monthlyDebt` and on the `monthlyDebt` of each approved loan; `term`,
`annualInterestRate` and `email` cannot influence it. -/
theorem decision_core_fields_only (la1 la2 : LoanApplication)
    (l1 l2 : List ApprovedLoan)
    (hs : la1.baseSalary = la2.baseSalary)
    (ha : la1.amount = la2.amount)
    (hm : la1.monthlyDebt = la2.monthlyDebt)
    (hl : l1.map ApprovedLoan.monthlyDebt = l2.map ApprovedLoan.monthlyDebt) :
    compute_decision la1 l1 = compute_decision la2 l2 := by
  have hcd : current_debt l1 = current_debt l2 := by
    rw [current_debt_eq, current_debt_eq, hl]
  simp [compute_decision, cap_disp, cap_max, hcd, hs, ha, hm]

/-- Witness for C9: two payloads differing in term, rate and email but agreeing
on the monetary core fields get the same decision. -/
theorem decision_core_fields_only_witness :
    compute_decision ⟨3000000, 1000000, 1000000, 12, 0, none⟩ [] =
      compute_decision ⟨3000000, 1000000, 1000000, 36, 1/2, some "a"⟩ [] :=
  decision_core_fields_only ⟨3000000, 1000000, 1000000, 12, 0, none⟩
    ⟨3000000, 1000000, 1000000, 36, 1/2, some "a"⟩ [] [] rfl rfl rfl rfl

/-!
Amortization scheduler (`build_amortization_schedule_using_fixed_fee`,
lambda_function.py lines 78-115).  One row of the Python schedule is a dict
`{month, interest, principal, remaining}`; the `float(...)` calls are
display-only conversions and the decimal quantities are modelled exactly.
-/

structure ScheduleEntry where
  month : ℕ
  interest : ℚ
  principal : ℚ
  remaining : ℚ
deriving DecidableEq

/-- The body of one loop iteration (lines 95-110): accrue interest, derive the
principal from the fixed fee, clamp it below at `0` and above at the balance,
round it, and round the new balance. -/
def monthEntry (i_month fee balance : ℚ) (m : ℕ) : ScheduleEntry :=
  let interest := round2 (balance * i_month)
  let p0 := fee - interest
  let p1 := if p0 < 0 then (0 : ℚ) else p0
  let p2 := if p1 > balance then balance else p1
  let principal := round2 p2
  ⟨m, interest, principal, round2 (balance - principal)⟩

/-- The loop of lines 94-113: at most `left` further iterations, stopping
early as soon as the rounded balance drops to `0.00` or below. -/
def buildAux (i_month fee : ℚ) (balance : ℚ) (m : ℕ) : ℕ → List ScheduleEntry
  | 0 => []
  | left + 1 =>
    let e := monthEntry i_month fee balance m
    if e.remaining ≤ 0 then [e]
    else e :: buildAux i_month fee e.remaining (m + 1) left

/-- Lines 78-115.  `term_months` is an integer; for `term_months ≤ 0` the
Python `range(1, term_months + 1)` is empty, which `Int.toNat` reproduces.
Line 90: `i_month = annual_rate / 12 if annual_rate else 0`. -/
def build_amortization_schedule_using_fixed_fee (amount : ℚ) (term_months : ℤ)
    (annual_rate : ℚ) (fixed_monthly_fee : ℚ) : List ScheduleEntry :=
  let i_month := if annual_rate ≠ 0 then annual_rate / 12 else 0
  buildAux i_month fixed_monthly_fee amount 1 term_months.toNat

/-- The clamped pre-rounding principal of a month is non-negative and bounded
by the incoming balance, as soon as the incoming balance is non-negative. -/
theorem monthEntry_principal_nonneg {balance : ℚ} (i_month fee : ℚ) (m : ℕ)
    (hb : 0 ≤ balance) : 0 ≤ (monthEntry i_month fee balance m).principal := by
  unfold monthEntry
  apply round2_nonneg
  split_ifs <;> first | exact hb | linarith

theorem monthEntry_principal_le {balance : ℚ} (i_month fee : ℚ) (m : ℕ)
    (hc : IsCent balance) : (monthEntry i_month fee balance m).principal ≤ balance := by
  unfold monthEntry
  have hcl : (if (if fee - round2 (balance * i_month) < 0 then (0:ℚ)
      else fee - round2 (balance * i_month)) > balance then balance
      else (if fee - round2 (balance * i_month) < 0 then (0:ℚ)
      else fee - round2 (balance * i_month))) ≤ balance := by
    split_ifs with h1 h2 h3 <;> first | rfl | linarith
  calc round2 _ ≤ round2 balance := round2_mono hcl
    _ = balance := round2_cent hc

theorem monthEntry_remaining_eq {balance : ℚ} (i_month fee : ℚ) (m : ℕ)
    (hc : IsCent balance) :
    (monthEntry i_month fee balance m).remaining =
      balance - (monthEntry i_month fee balance m).principal := by
  unfold monthEntry
  exact round2_cent (cent_sub hc (round2_isCent _))

theorem monthEntry_remaining_isCent (i_month fee balance : ℚ) (m : ℕ) :
    IsCent (monthEntry i_month fee balance m).remaining :=
  round2_isCent _

theorem monthEntry_month (i_month fee balance : ℚ) (m : ℕ) :
    (monthEntry i_month fee balance m).month = m := rfl

/-- The schedule never has more rows than the loop bound. -/
theorem buildAux_length (i_month fee : ℚ) :
    ∀ (left : ℕ) (balance : ℚ) (m : ℕ),
      (buildAux i_month fee balance m left).length ≤ left := by
  intro left
  induction left with
  | zero => intro balance m; simp [buildAux]
  | succ n ih =>
    intro balance m
    unfold buildAux
    dsimp only
    split_ifs with h
    · simp
    · simpa using ih (monthEntry i_month fee balance m).remaining (m + 1)

/-- As long as the loop bound is positive the loop emits at least one row. -/
theorem buildAux_ne_nil (i_month fee balance : ℚ) (m : ℕ) {left : ℕ}
    (h : 0 < left) : buildAux i_month fee balance m left ≠ [] := by
  cases left with
  | zero => exact absurd h (lt_irrefl 0)
  | succ n =>
    unfold buildAux
    dsimp only
    split_ifs <;> simp

/-- The `remaining` field of the last emitted row (`0` for the empty
schedule, which the loop only produces when the term bound is `0`). -/
def lastRemaining : List ScheduleEntry → ℚ
  | [] => 0
  | [e] => e.remaining
  | _ :: e :: rest => lastRemaining (e :: rest)

theorem lastRemaining_cons (x : ScheduleEntry) {rest : List ScheduleEntry}
    (h : rest ≠ []) : lastRemaining (x :: rest) = lastRemaining rest := by
  cases rest with
  | nil => exact absurd rfl h
  | cons y t => rfl

/-- If the loop emitted fewer rows than its bound it stopped early, and it
stops early exactly when the rounded balance has dropped to `0.00` or below. -/
theorem buildAux_last_le (i_month fee : ℚ) :
    ∀ (left : ℕ) (balance : ℚ) (m : ℕ),
      (buildAux i_month fee balance m left).length < left →
      lastRemaining (buildAux i_month fee balance m left) ≤ 0 := by
  intro left
  induction left with
  | zero => intro balance m h; exact absurd h (by simp)
  | succ n ih =>
    intro balance m h
    unfold buildAux at h ⊢
    dsimp only at h ⊢
    split_ifs at h ⊢ with hr
    · simpa [lastRemaining] using hr
    · have hlen : (buildAux i_month fee (monthEntry i_month fee balance m).remaining
          (m + 1) n).length < n := by
        simpa using h
      have hpos : 0 < n := lt_of_le_of_lt (Nat.zero_le _) hlen
      rw [lastRemaining_cons _ (buildAux_ne_nil i_month fee _ (m + 1) hpos)]
      exact ih _ (m + 1) hlen

/-- Row-chain invariant threading the balance through the schedule: each row
repays at most the balance entering its month, leaves a non-negative balance,
and never lets the balance grow. -/
def scheduleOk : ℚ → List ScheduleEntry → Prop
  | _, [] => True
  | b, e :: rest =>
    e.principal ≤ b ∧ 0 ≤ e.remaining ∧ e.remaining ≤ b ∧ scheduleOk e.remaining rest

theorem scheduleOk_chain :
    ∀ (s : List ScheduleEntry) (b : ℚ), scheduleOk b s →
      List.Chain' (fun x y => y.remaining ≤ x.remaining) s := by
  intro s
  induction s with
  | nil => intro b _; simp
  | cons e rest ih =>
    intro b hok
    obtain ⟨-, -, -, hrest⟩ := hok
    cases rest with
    | nil => simp
    | cons f t =>
      rw [List.chain'_cons]
      exact ⟨hrest.2.2.1, ih e.remaining hrest⟩

/-- When the opening balance is a non-negative whole-cent amount the loop
maintains the row-chain invariant. -/
theorem buildAux_scheduleOk (i_month fee : ℚ) :
    ∀ (left : ℕ) (balance : ℚ) (m : ℕ), 0 ≤ balance → IsCent balance →
      scheduleOk balance (buildAux i_month fee balance m left) := by
  intro left
  induction left with
  | zero => intro balance m _ _; simp [buildAux, scheduleOk]
  | succ n ih =>
    intro balance m hb hc
    have hple := monthEntry_principal_le i_month fee m hc
    have hpnn := monthEntry_principal_nonneg i_month fee m hb
    have heq := monthEntry_remaining_eq i_month fee m hc
    have hrnn : 0 ≤ (monthEntry i_month fee balance m).remaining := by
      rw [heq]; linarith
    have hrle : (monthEntry i_month fee balance m).remaining ≤ balance := by
      rw [heq]; linarith
    unfold buildAux
    dsimp only
    split_ifs with hstop
    · exact ⟨hple, hrnn, hrle, trivial⟩
    · exact ⟨hple, hrnn, hrle,
        ih _ (m + 1) hrnn (monthEntry_remaining_isCent i_month fee balance m)⟩

/-- Balance-difference chain: each row's `remaining` is exactly the previous
balance minus the row's `principal`. -/
def diffChain : ℚ → List ScheduleEntry → Prop
  | _, [] => True
  | b, e :: rest => e.remaining = b - e.principal ∧ diffChain e.remaining rest

/-- When the opening balance is a whole-cent amount, the final rounding of
`balance - principal` is exact and the difference chain holds. -/
theorem buildAux_diffChain (i_month fee : ℚ) :
    ∀ (left : ℕ) (balance : ℚ) (m : ℕ), IsCent balance →
      diffChain balance (buildAux i_month fee balance m left) := by
  intro left
  induction left with
  | zero => intro balance m _; simp [buildAux, diffChain]
  | succ n ih =>
    intro balance m hc
    have heq := monthEntry_remaining_eq i_month fee m hc
    unfold buildAux
    dsimp only
    split_ifs with hstop
    · exact ⟨heq, trivial⟩
    · exact ⟨heq, ih _ (m + 1) (monthEntry_remaining_isCent i_month fee balance m)⟩

theorem diffChain_head :
    ∀ {s : List ScheduleEntry} {b : ℚ}, diffChain b s →
      ∀ (h : 0 < s.length), (s.get ⟨0, h⟩).remaining = b - (s.get ⟨0, h⟩).principal := by
  intro s b hd h
  cases s with
  | nil => exact absurd h (by simp)
  | cons e rest => exact hd.1

theorem diffChain_get :
    ∀ (s : List ScheduleEntry) (b : ℚ), diffChain b s →
      ∀ (i : ℕ) (h : i + 1 < s.length),
        (s.get ⟨i + 1, h⟩).remaining =
          (s.get ⟨i, Nat.lt_of_succ_lt h⟩).remaining - (s.get ⟨i + 1, h⟩).principal := by
  intro s
  induction s with
  | nil => intro b _ i h; exact absurd h (by simp)
  | cons e rest ih =>
    intro b hd i h
    obtain ⟨he, hrest⟩ := hd
    cases i with
    | zero =>
      have h0 : 0 < rest.length := by simpa using h
      exact diffChain_head hrest h0
    | succ j =>
      have hj : j + 1 < rest.length := by simpa using h
      exact ih e.remaining hrest j hj

/-- Every emitted principal is non-negative whenever the balance entering the
loop is non-negative (the clamps do not need a whole-cent balance for this). -/
theorem buildAux_principal_nonneg (i_month fee : ℚ) :
    ∀ (left : ℕ) (balance : ℚ) (m : ℕ), 0 ≤ balance →
      ∀ e ∈ buildAux i_month fee balance m left, 0 ≤ e.principal := by
  intro left
  induction left with
  | zero => intro balance m _ e he; exact absurd he (by simp [buildAux])
  | succ n ih =>
    intro balance m hb e he
    unfold buildAux at he
    dsimp only at he
    split_ifs at he with hstop
    · rw [List.mem_singleton] at he
      rw [he]
      exact monthEntry_principal_nonneg i_month fee m hb
    · rw [List.mem_cons] at he
      rcases he with rfl | he
      · exact monthEntry_principal_nonneg i_month fee m hb
      · exact ih _ (m + 1) (le_of_lt (not_le.mp hstop)) e he

/-!
Claim theorems for the scheduler.
-/

/-- C2 (amended): the schedule never has more than `termMonths` rows, and
whenever it has strictly fewer rows the loop stopped early, so the final
`remaining` is `≤ 0.00`.  The unconditional "final remaining ≤ 0.00" of the
original claim is refuted by `schedule_final_positive_cex`. -/
theorem schedule_length_and_early_stop (amount : ℚ) (term : ℤ) (rate fee : ℚ)
    (h1 : 0 < amount) (h2 : 0 < term) (h3 : 0 ≤ rate) (h4 : 0 ≤ fee) :
    (build_amortization_schedule_using_fixed_fee amount term rate fee).length ≤ term.toNat ∧
    ((build_amortization_schedule_using_fixed_fee amount term rate fee).length < term.toNat →
      lastRemaining (build_amortization_schedule_using_fixed_fee amount term rate fee) ≤ 0) := by
  unfold build_amortization_schedule_using_fixed_fee
  dsimp only
  exact ⟨buildAux_length _ _ _ _ _, buildAux_last_le _ _ _ _ _⟩

/-- Witness for C2 at `amount 100, term 5, rate 0, fee 100`: the loop stops
after one month with a zero final balance. -/
theorem schedule_length_and_early_stop_witness :
    (build_amortization_schedule_using_fixed_fee 100 5 0 100).length ≤ (5 : ℤ).toNat ∧
    lastRemaining (build_amortization_schedule_using_fixed_fee 100 5 0 100) ≤ 0 :=
  ⟨(schedule_length_and_early_stop 100 5 0 100 (by norm_num) (by norm_num)
      (le_refl 0) (by norm_num)).1,
   (schedule_length_and_early_stop 100 5 0 100 (by norm_num) (by norm_num)
      (le_refl 0) (by norm_num)).2 (by decide)⟩

/-- Counterexample to C2 as stated: with the valid input
`amount 100, term 2, rate 0, fee 0` the loop runs the full term and the final
`remaining` is `100 > 0.00`, never reaching `0.00`. -/
theorem schedule_final_positive_cex :
    build_amortization_schedule_using_fixed_fee 100 2 0 0 =
      [⟨1, 0, 0, 100⟩, ⟨2, 0, 0, 100⟩] ∧ ¬ ((100 : ℚ) ≤ 0) := by
  constructor <;> decide

/-- C3 (amended): for a non-negative whole-cent opening principal and
non-negative rate and installment, the schedule satisfies the row-chain
invariant (each row's principal is at most the balance entering its month,
each `remaining` is non-negative and at most the balance entering the month)
and `remaining` is monotonically non-increasing from row to row.  For an
opening principal that is not a whole-cent amount the invariant fails, see
`schedule_negative_remaining_cex`. -/
theorem schedule_cent_invariants (amount : ℚ) (term : ℤ) (rate fee : ℚ)
    (hb : 0 ≤ amount) (hc : IsCent amount) (hr : 0 ≤ rate) (hf : 0 ≤ fee) :
    scheduleOk amount (build_amortization_schedule_using_fixed_fee amount term rate fee) ∧
    List.Chain' (fun x y => y.remaining ≤ x.remaining)
      (build_amortization_schedule_using_fixed_fee amount term rate fee) := by
  have hok : scheduleOk amount
      (build_amortization_schedule_using_fixed_fee amount term rate fee) := by
    unfold build_amortization_schedule_using_fixed_fee
    dsimp only
    exact buildAux_scheduleOk _ _ _ _ _ hb hc
  exact ⟨hok, scheduleOk_chain _ _ hok⟩

/-- Witness for C3 at `amount 100, term 2, rate 0, fee 30`. -/
theorem schedule_cent_invariants_witness :
    scheduleOk 100 (build_amortization_schedule_using_fixed_fee 100 2 0 30) ∧
    List.Chain' (fun x y => y.remaining ≤ x.remaining)
      (build_amortization_schedule_using_fixed_fee 100 2 0 30) :=
  schedule_cent_invariants 100 2 0 30 (by norm_num) ⟨10000, by norm_num⟩
    (le_refl 0) (by norm_num)

/-- Counterexample to C3 as stated: with the non-negative opening principal
`0.005` (term 1, rate 0, installment 1) the only row has
`principal = 0.01 > 0.005` (exceeding the balance entering the month) and
`remaining = -0.01 < 0` (a negative remaining balance). -/
theorem schedule_negative_remaining_cex :
    build_amortization_schedule_using_fixed_fee (5/1000) 1 0 1 =
      [⟨1, 0, 1/100, -(1/100)⟩] ∧
    (5/1000 : ℚ) < 1/100 ∧ (-(1/100) : ℚ) < 0 := by
  refine ⟨by decide, by norm_num, by norm_num⟩

/-- C5 (amended): provided the opening principal is a whole-cent amount,
`remaining[i] = remaining[i-1] - principal[i]` holds exactly for every row,
with `remaining[0]` taken as the opening principal.  For a sub-cent opening
principal the first row violates it, see `schedule_remaining_difference_cex`. -/
theorem schedule_remaining_difference (amount : ℚ) (term : ℤ) (rate fee : ℚ)
    (hc : IsCent amount) :
    (∀ h : 0 < (build_amortization_schedule_using_fixed_fee amount term rate fee).length,
      ((build_amortization_schedule_using_fixed_fee amount term rate fee).get
          ⟨0, h⟩).remaining =
        amount - ((build_amortization_schedule_using_fixed_fee amount term rate fee).get
          ⟨0, h⟩).principal) ∧
    (∀ (i : ℕ)
      (h : i + 1 < (build_amortization_schedule_using_fixed_fee amount term rate fee).length),
      ((build_amortization_schedule_using_fixed_fee amount term rate fee).get
          ⟨i + 1, h⟩).remaining =
        ((build_amortization_schedule_using_fixed_fee amount term rate fee).get
          ⟨i, Nat.lt_of_succ_lt h⟩).remaining -
        ((build_amortization_schedule_using_fixed_fee amount term rate fee).get
          ⟨i + 1, h⟩).principal) := by
  have hd : diffChain amount
      (build_amortization_schedule_using_fixed_fee amount term rate fee) := by
    unfold build_amortization_schedule_using_fixed_fee
    dsimp only
    exact buildAux_diffChain _ _ _ _ _ hc
  exact ⟨diffChain_head hd, diffChain_get _ _ hd⟩

/-- Witness for C5: consecutive rows of the schedule for
`amount 100, term 2, rate 0, fee 30` differ exactly by the second row's
principal. -/
theorem schedule_remaining_difference_witness :
    ((build_amortization_schedule_using_fixed_fee 100 2 0 30).get
        ⟨1, by decide⟩).remaining =
      ((build_amortization_schedule_using_fixed_fee 100 2 0 30).get
        ⟨0, by decide⟩).remaining -
      ((build_amortization_schedule_using_fixed_fee 100 2 0 30).get
        ⟨1, by decide⟩).principal :=
  (schedule_remaining_difference 100 2 0 30 ⟨10000, by norm_num⟩).2 0 (by decide)

/-- Counterexample to C5 as stated: with opening principal `10.006` and
installment `0` the first row has `remaining = 10.01 ≠ 10.006 - 0`: the final
rounding of the balance is not exact for a sub-cent opening principal. -/
theorem schedule_remaining_difference_cex :
    build_amortization_schedule_using_fixed_fee (5003/500) 1 0 0 =
      [⟨1, 0, 0, 1001/100⟩] ∧ ¬ ((1001/100 : ℚ) = 5003/500 - 0) := by
  refine ⟨by decide, by norm_num⟩

/-- C6 (amended): `build_amortization_schedule_using_fixed_fee` performs no
input validation.  For `termMonths ≤ 0` it returns the empty schedule instead
of failing, and a negative `annualRate` is accepted and produces ordinary rows
(with negative interest); no error of any kind is raised. -/
theorem build_no_validation :
    (∀ (amount rate fee : ℚ) (term : ℤ), term ≤ 0 →
      build_amortization_schedule_using_fixed_fee amount term rate fee = []) ∧
    build_amortization_schedule_using_fixed_fee 1000 2 (-(6/5)) 100 =
      [⟨1, -100, 200, 800⟩, ⟨2, -80, 180, 620⟩] := by
  constructor
  · intro amount rate fee term h
    unfold build_amortization_schedule_using_fixed_fee
    dsimp only
    have : term.toNat = 0 := Int.toNat_of_nonpos h
    rw [this]
    rfl
  · decide

/-- Witness for C6: a zero and a negative term both yield the empty schedule. -/
theorem build_no_validation_witness :
    build_amortization_schedule_using_fixed_fee 100 (-3) (5/100) 10 = [] :=
  build_no_validation.1 100 (5/100) 10 (-3) (by decide)

/-- Counterexample to C6 as stated: on `termMonths = 0` (and on a negative
rate, see `build_no_validation`) the function returns a value normally — the
empty schedule — rather than failing with a validation error; the source
defines no `ValidationError` at all. -/
theorem build_no_error_cex :
    build_amortization_schedule_using_fixed_fee 100 0 (5/100) 10 = [] ∧
    build_amortization_schedule_using_fixed_fee 1000 2 (-(6/5)) 100 ≠ [] := by
  constructor <;> decide

/-- C7: the scenario `principal 12,000,000, term 12, rate 0, fee 1,000,000`
produces exactly 12 rows with zero interest, principal `1,000,000` every
month, and `remaining` decreasing by exactly `1,000,000` down to `0.00` at
month 12. -/
theorem schedule_zero_rate_scenario :
    build_amortization_schedule_using_fixed_fee 12000000 12 0 1000000 =
      [⟨1, 0, 1000000, 11000000⟩, ⟨2, 0, 1000000, 10000000⟩,
       ⟨3, 0, 1000000, 9000000⟩, ⟨4, 0, 1000000, 8000000⟩,
       ⟨5, 0, 1000000, 7000000⟩, ⟨6, 0, 1000000, 6000000⟩,
       ⟨7, 0, 1000000, 5000000⟩, ⟨8, 0, 1000000, 4000000⟩,
       ⟨9, 0, 1000000, 3000000⟩, ⟨10, 0, 1000000, 2000000⟩,
       ⟨11, 0, 1000000, 1000000⟩, ⟨12, 0, 1000000, 0⟩] := by
  decide

/-- C10: for a non-negative opening principal every emitted row has a
non-negative `principal`: the two clamps keep the pre-rounding principal in
`[0, balance]`, and rounding preserves non-negativity. -/
theorem schedule_principal_nonneg (amount : ℚ) (term : ℤ) (rate fee : ℚ)
    (hb : 0 ≤ amount) :
    ∀ e ∈ build_amortization_schedule_using_fixed_fee amount term rate fee,
      0 ≤ e.principal := by
  unfold build_amortization_schedule_using_fixed_fee
  dsimp only
  exact buildAux_principal_nonneg _ _ _ _ _ hb

/-- Witness for C10: the first row of the schedule for
`amount 100, term 2, rate 0, fee 30` has a non-negative principal. -/
theorem schedule_principal_nonneg_witness :
    (0 : ℚ) ≤ (⟨1, 0, 30, 70⟩ : ScheduleEntry).principal :=
  schedule_principal_nonneg 100 2 0 30 (by norm_num) ⟨1, 0, 30, 70⟩ (by decide)

end BorrowingCapacity
